import Mathlib

/-!
Verification development for the snake_snatch repository.

The model below is a shallow embedding of `src/snake.rs` and
`src/network.rs`.  Rust `f64` values are idealized as real numbers,
`usize` as `Nat`, and `i32` counters as `Int` (no overflow is relied on
by the code).  The geometry helpers `Pos2d::dist` and
`Interpolable::{set_end, advance, cur}` live in the external `engine_p`
crate whose source is not part of this repository; they are modelled
from the specification text and are marked as such.
-/

set_option maxHeartbeats 1000000

/-- A 2-D point, mirroring `engine_p::interpolable::Pos2d` with `x`/`y`
f64 coordinates idealized as reals. -/
@[ext]
structure Pos2d where
  x : ℝ
  y : ℝ

noncomputable instance : DecidableEq Pos2d := Classical.decEq Pos2d

/-- Modelled from the spec: Euclidean distance between two points
(`Pos2d::dist` of the external `engine_p` crate; the spec speaks of a
point being "farther than a fixed segment-length threshold (20 units)"
from another, i.e. ordinary distance). -/
noncomputable def Pos2d.dist (p q : Pos2d) : ℝ :=
  Real.sqrt ((p.x - q.x) ^ 2 + (p.y - q.y) ^ 2)

/-- Modelled from the spec: the external `engine_p` crate's
`Interpolable` (created at `cur` with speed, `set_end target`,
`advance elapsed`, then read back with `cur()`): "advance the last
point toward the target by `growSpeed * elapsedTime`", stopping at the
target when it is reached ("once the shrinking point reaches the
previous point exactly"). -/
noncomputable def interpAdvance (cur target : Pos2d) (speed elapsed : ℝ) : Pos2d :=
  let step := speed * elapsed
  let d := Pos2d.dist cur target
  if d ≤ step then target
  else ⟨cur.x + step / d * (target.x - cur.x), cur.y + step / d * (target.y - cur.y)⟩

/-- `EndUpdateMsg` from `src/snake.rs`: an incremental trail diff. -/
structure EndUpdateMsg where
  prev_segs : ℕ
  prev_segs_sum : ℝ
  last_segs : List Pos2d

/-- `SnakeMsg` from `src/snake.rs`. -/
inductive SnakeMsg where
  | endUpdate (u : EndUpdateMsg)
  | fullUpdateReq

/-- `NetData` from `src/network.rs`: the wire envelope `{stream_id, msg}`. -/
structure NetData (Msg : Type) where
  stream_id : Int
  msg : Msg

/-- `NetUpdate` from `src/network.rs`: inbound events. -/
inductive NetUpdate (Msg : Type) where
  | listenFail
  | connectFail
  | newPeer (handle : Int)
  | data (d : NetData Msg)
  | closed

/-- `NetMsg` from `src/traits.rs` (the application message variant;
`SnakeIntro` fields and `Ping` payload kept abstractly). -/
inductive NetMsg where
  | ping (t : ℝ)
  | snakeIntro (name : String) (snake_stream_id : Int) (start_points : List Pos2d)
  | snake (m : SnakeMsg)
  | startPointsUpdate (pts : List (List Pos2d))

/-- `read_snake_msgs` from `src/snake.rs`: keep the `Data(NetMsg::Snake _)`
updates in order (everything else is only logged). -/
def readSnakeMsgs (upds : List (NetUpdate NetMsg)) : List SnakeMsg :=
  upds.filterMap fun u =>
    match u with
    | NetUpdate.data ⟨_, NetMsg.snake m⟩ => some m
    | _ => none

/-- `SnakeData` from `src/snake.rs`. -/
structure SnakeData where
  snake_points : List Pos2d
  name : String
  points_changed : Bool

/-- `SnakeData::points_sum` from `src/snake.rs`: sum of `x + y` over the
first `num_points` points. -/
def SnakeData.points_sum (d : SnakeData) (num_points : ℕ) : ℝ :=
  ((d.snake_points.take num_points).map (fun p => p.x + p.y)).sum

/-- An outbound `network().send(peer, stream_id, NetMsg::Snake msg)` call:
(handle, stream id, message). -/
abbrev SnakeSend := Int × Int × SnakeMsg

/-- `OwnSnakeImp::think` from `src/snake.rs` (lines 60-91).  The mouse
state, elapsed time and `SnakeConfig::grow_speed` are passed explicitly
in place of the `BaseGame`/config arguments.  `last().unwrap()` and the
`len()-2` index are totalized with defaults; every caller keeps the
trail at length ≥ 2 where they coincide with the partial originals. -/
noncomputable def ownThink (data : SnakeData) (mouse_down : Bool) (mouse_pos : Pos2d)
    (elapsed grow_speed : ℝ) : SnakeData :=
  let pts := data.snake_points
  let lastPt := pts.getLastD ⟨0, 0⟩
  if mouse_down = true ∧ mouse_pos ≠ lastPt then
    let cur := interpAdvance lastPt mouse_pos grow_speed elapsed
    let pts1 := pts.set (pts.length - 1) cur
    let pts2 :=
      if 20 < Pos2d.dist cur (pts1.getD (pts1.length - 2) ⟨0, 0⟩) then pts1 ++ [cur]
      else pts1
    { data with snake_points := pts2, points_changed := true }
  else if mouse_down = false ∧ 2 < pts.length then
    let segment_start := pts.getD (pts.length - 2) ⟨0, 0⟩
    let cur := interpAdvance lastPt segment_start grow_speed elapsed
    let pts2 :=
      if cur = segment_start then pts.dropLast
      else pts.set (pts.length - 1) cur
    { data with snake_points := pts2, points_changed := true }
  else
    data

/-- `RemoteSnakeImp` from `src/snake.rs`. -/
structure RemoteSnakeImp where
  peer : Int
  stream_id : Int

/-- The body of the per-message closure in `RemoteSnakeImp::think`
(`src/snake.rs` lines 104-129): handling of one `SnakeMsg` by a mirror.
Returns the updated data and the messages sent back (a `FullUpdateReq`
on the mirror's own peer/stream when a check fails). -/
noncomputable def RemoteSnakeImp.handleMsg (r : RemoteSnakeImp) (data : SnakeData)
    (msg : SnakeMsg) : SnakeData × List SnakeSend :=
  match msg with
  | SnakeMsg.endUpdate u =>
      if data.snake_points.length < u.prev_segs then
        (data, [(r.peer, r.stream_id, SnakeMsg.fullUpdateReq)])
      else if data.points_sum u.prev_segs ≠ u.prev_segs_sum then
        (data, [(r.peer, r.stream_id, SnakeMsg.fullUpdateReq)])
      else
        ({ data with
            snake_points := data.snake_points.take u.prev_segs ++ u.last_segs,
            points_changed := true }, [])
  | SnakeMsg.fullUpdateReq => (data, [])

/-- Sequential processing of the drained snake messages by
`RemoteSnakeImp::think`: each message is handled in order, outbound
sends are emitted in processing order. -/
noncomputable def RemoteSnakeImp.processMsgs (r : RemoteSnakeImp) (data : SnakeData)
    (msgs : List SnakeMsg) : SnakeData × List SnakeSend :=
  match msgs with
  | [] => (data, [])
  | m :: rest =>
      let r1 := r.handleMsg data m
      let r2 := r.processMsgs r1.1 rest
      (r2.1, r1.2 ++ r2.2)

/-- `RemoteSnakeImp::think` from `src/snake.rs` (lines 102-131): drain the
stream's events and process each snake message in order. -/
noncomputable def RemoteSnakeImp.think (r : RemoteSnakeImp) (data : SnakeData)
    (upds : List (NetUpdate NetMsg)) : SnakeData × List SnakeSend :=
  r.processMsgs data (readSnakeMsgs upds)

/-- `SnakePeer` from `src/snake.rs`. -/
structure SnakePeer where
  peer : Int
  stream_id : Int
  next_send_time : ℝ

/-- The `EndUpdateMsg` built by the throttled branch of
`SnakePeer::think` (`src/snake.rs` lines 162-185): last-2-points diff
when the trail has more than 2 points, otherwise a whole-trail diff. -/
def peerUpdateMsg (data : SnakeData) : EndUpdateMsg :=
  let pts := data.snake_points
  if 2 < pts.length then
    ⟨pts.length - 2, data.points_sum (pts.length - 2), pts.drop (pts.length - 2)⟩
  else
    ⟨0, 0, pts⟩

/-- The replies sent while draining events in `SnakePeer::think`
(`src/snake.rs` lines 144-160): one full snapshot diff per received
`FullUpdateReq`, in order; every other message is only logged. -/
noncomputable def peerReplies (p : SnakePeer) (pts : List Pos2d) :
    List SnakeMsg → List SnakeSend
  | [] => []
  | SnakeMsg.fullUpdateReq :: rest =>
      (p.peer, p.stream_id, SnakeMsg.endUpdate ⟨0, 0, pts⟩) :: peerReplies p pts rest
  | _ :: rest => peerReplies p pts rest

/-- `SnakePeer::think` from `src/snake.rs` (lines 142-189): reply to each
`FullUpdateReq` with a full snapshot diff, then, if the dirty flag is set
and the 100ms throttle allows, send the incremental diff and reset the
throttle clock.  The snake data itself is never modified. -/
noncomputable def SnakePeer.think (p : SnakePeer) (data : SnakeData)
    (upds : List (NetUpdate NetMsg)) (now : ℝ) : SnakePeer × List SnakeSend :=
  let replies := peerReplies p data.snake_points (readSnakeMsgs upds)
  if data.points_changed = true ∧ p.next_send_time < now then
    ({ p with next_send_time := now + 0.1 },
      replies ++ [(p.peer, p.stream_id, SnakeMsg.endUpdate (peerUpdateMsg data))])
  else
    (p, replies)

/-- Sequential processing of the peer list in `Snake::think`
(`src/snake.rs` lines 255-257); each peer reads its own stream's events
and none of them modifies the snake data. -/
noncomputable def peersThink (ps : List SnakePeer) (upds : List (List (NetUpdate NetMsg)))
    (data : SnakeData) (now : ℝ) : List SnakePeer × List SnakeSend :=
  match ps with
  | [] => ([], [])
  | p :: rest =>
      let r1 := p.think data (upds.headD []) now
      let r2 := peersThink rest upds.tail data now
      (r1.1 :: r2.1, r1.2 ++ r2.2)

/-- `Snake` from `src/snake.rs`; `OwnSnakeImp` is a fieldless struct, so
its optional presence is a `Bool`. -/
structure Snake where
  data : SnakeData
  own_imp : Bool
  remote_imp : Option RemoteSnakeImp
  peers : List SnakePeer

/-- `Snake::think` from `src/snake.rs` (lines 244-258): clear the dirty
flag, then run the owner, mirror and peer sub-ticks in order.  Per-frame
inputs (mouse, clock, config, and the events polled for the mirror
stream and for each peer stream) are passed explicitly. -/
noncomputable def Snake.think (s : Snake) (mouse_down : Bool) (mouse_pos : Pos2d)
    (elapsed now grow_speed : ℝ) (remote_upds : List (NetUpdate NetMsg))
    (peer_upds : List (List (NetUpdate NetMsg))) : Snake × List SnakeSend :=
  let d0 := { s.data with points_changed := false }
  let d1 := if s.own_imp then ownThink d0 mouse_down mouse_pos elapsed grow_speed else d0
  let r2 :=
    match s.remote_imp with
    | some r => r.think d1 remote_upds
    | none => (d1, [])
  let r3 := peersThink s.peers peer_upds r2.1 now
  ({ s with data := r2.1, peers := r3.1 }, r2.2 ++ r3.2)

/-- A snake message of the shape an owner-side `SnakePeer::think`
emits from a trail of length ≥ 2: a `FullUpdateReq`, a throttled
incremental diff, or a full snapshot reply. -/
def ProducedByPeer (m : SnakeMsg) : Prop :=
  m = SnakeMsg.fullUpdateReq
  ∨ ∃ d : SnakeData, 2 ≤ d.snake_points.length
      ∧ (m = SnakeMsg.endUpdate (peerUpdateMsg d)
        ∨ m = SnakeMsg.endUpdate ⟨0, 0, d.snake_points⟩)

/-- `PeerInfo` from `src/network.rs`: one connection record.  The JS
`Peer`/`DataConnection` objects and their callback closures carry no
protocol state; the bound data connection is abstracted to the boolean
`has_dc` (whether `_dc` is `Some`).  `received_msgs` is the per-stream
FIFO queue map (`HashMap<i32, Vec<NetUpdate>>`). -/
structure PeerInfo (Msg : Type) where
  is_listen : Bool
  is_closed : Bool
  has_dc : Bool
  received_msgs : Int → Option (List (NetUpdate Msg))
  next_stream_id : Int

/-- `PeerInfo::new` from `src/network.rs` (lines 128-144): fresh record,
listener side starts stream allocation at 1, connector side at 2. -/
def PeerInfo.new (Msg : Type) (is_listen : Bool) : PeerInfo Msg :=
  { is_listen := is_listen
    is_closed := false
    has_dc := false
    received_msgs := fun _ => none
    next_stream_id := if is_listen then 1 else 2 }

/-- `PeerInfo::receive` from `src/network.rs` (lines 146-148):
`received_msgs.entry(stream_id).or_default().push(upd)`. -/
def PeerInfo.receive {Msg : Type} (info : PeerInfo Msg) (stream_id : Int)
    (upd : NetUpdate Msg) : PeerInfo Msg :=
  { info with
      received_msgs := fun s =>
        if s = stream_id then some (((info.received_msgs stream_id).getD []) ++ [upd])
        else info.received_msgs s }

/-- `NetworkManagerImp` from `src/network.rs`: handle registry state.
The `HashMap<i32, PeerInfo>` is modelled as a partial map. -/
structure NetworkManagerImp (Msg : Type) where
  handle_map : Int → Option (PeerInfo Msg)
  next_handle : Int

/-- `NetworkManager::send` from `src/network.rs` (lines 364-390): look
the handle up; if it has a bound data connection, hand the envelope
`{stream_id, msg}` to it (returned as `some`), otherwise drop the
message (`none`).  The registry state is never modified and no error is
returned in any case. -/
def netSend {Msg : Type} (st : NetworkManagerImp Msg) (handle stream_id : Int)
    (msg : Msg) : NetworkManagerImp Msg × Option (NetData Msg) :=
  match st.handle_map handle with
  | some info =>
      if info.has_dc then (st, some ⟨stream_id, msg⟩)
      else (st, none)
  | none => (st, none)

/-- `NetworkManager::new_stream_id` from `src/network.rs` (lines
393-401): return the record's `next_stream_id` and bump it by 2;
`none` for an unknown handle. -/
def newStreamId {Msg : Type} (st : NetworkManagerImp Msg) (handle : Int) :
    NetworkManagerImp Msg × Option Int :=
  match st.handle_map handle with
  | some info =>
      ({ st with
          handle_map := fun h =>
            if h = handle then some { info with next_stream_id := info.next_stream_id + 2 }
            else st.handle_map h },
        some info.next_stream_id)
  | none => (st, none)

/-- `NetworkManager::get_handle_events` from `src/network.rs` (lines
404-414): `std::mem::take` the queue of the (handle, stream) pair if it
exists (leaving an empty queue behind), otherwise return the empty list
and leave the state untouched. -/
def getHandleEvents {Msg : Type} (st : NetworkManagerImp Msg) (handle stream_id : Int) :
    NetworkManagerImp Msg × List (NetUpdate Msg) :=
  match st.handle_map handle with
  | some info =>
      match info.received_msgs stream_id with
      | some msgs =>
          ({ st with
              handle_map := fun h =>
                if h = handle then
                  some { info with
                    received_msgs := fun s =>
                      if s = stream_id then some [] else info.received_msgs s }
                else st.handle_map h },
            msgs)
      | none => (st, [])
  | none => (st, [])

/-- The queue currently stored for a (handle, stream) pair. -/
def queuedEvents {Msg : Type} (st : NetworkManagerImp Msg) (handle stream_id : Int) :
    List (NetUpdate Msg) :=
  ((st.handle_map handle).bind fun info => info.received_msgs stream_id).getD []

/-- Repeated calls of `NetworkManager::new_stream_id` on one handle,
collecting the returned ids in call order. -/
def iterNewStreamIds {Msg : Type} (st : NetworkManagerImp Msg) (handle : Int) :
    ℕ → NetworkManagerImp Msg × List (Option Int)
  | 0 => (st, [])
  | Nat.succ n =>
      let r := iterNewStreamIds st handle n
      let r2 := newStreamId r.1 handle
      (r2.1, r.2 ++ [r2.2])

theorem newStreamId_of_known {Msg : Type} (st : NetworkManagerImp Msg) (h : Int)
    (info : PeerInfo Msg) (hm : st.handle_map h = some info) :
    newStreamId st h =
      ({ st with
          handle_map := fun h2 =>
            if h2 = h then some { info with next_stream_id := info.next_stream_id + 2 }
            else st.handle_map h2 },
        some info.next_stream_id) := by
  simp only [newStreamId, hm]

theorem iterNewStreamIds_spec {Msg : Type} (st : NetworkManagerImp Msg) (h : Int)
    (info : PeerInfo Msg) (hm : st.handle_map h = some info) (n : ℕ) :
    (iterNewStreamIds st h n).1.handle_map h =
      some { info with next_stream_id := info.next_stream_id + 2 * n }
    ∧ (iterNewStreamIds st h n).2 =
      (List.range n).map (fun i : ℕ => some (info.next_stream_id + 2 * (i : Int))) := by
  induction n with
  | zero =>
      constructor
      · simpa using hm
      · simp [iterNewStreamIds]
  | succ n ih =>
      obtain ⟨ih1, ih2⟩ := ih
      have e1 : (iterNewStreamIds st h (n + 1)).1 =
          (newStreamId (iterNewStreamIds st h n).1 h).1 := rfl
      have e2 : (iterNewStreamIds st h (n + 1)).2 =
          (iterNewStreamIds st h n).2 ++ [(newStreamId (iterNewStreamIds st h n).1 h).2] := rfl
      rw [newStreamId_of_known _ _ _ ih1] at e1 e2
      have harith : info.next_stream_id + 2 * (n : Int) + 2 =
          info.next_stream_id + 2 * ((n + 1 : ℕ) : Int) := by
        push_cast
        ring
      constructor
      · rw [e1]
        simp [harith]
      · rw [e2, ih2, List.range_succ, List.map_append]
        simp

/-- C4: `get_handle_events` drains the queue of the (handle, stream)
pair: it returns exactly the queued events (which `PeerInfo::receive`
appended in arrival order), a second call with no intervening arrival
returns the empty list, and for an unknown handle or stream it returns
the empty list and leaves the registry state unchanged. -/
theorem c4_get_handle_events_drain {Msg : Type} (st : NetworkManagerImp Msg) (h s : Int) :
    (getHandleEvents st h s).2 = queuedEvents st h s
    ∧ (getHandleEvents (getHandleEvents st h s).1 h s).2 = []
    ∧ ((st.handle_map h = none
        ∨ ∃ info, st.handle_map h = some info ∧ info.received_msgs s = none) →
        (getHandleEvents st h s).1 = st ∧ (getHandleEvents st h s).2 = [])
    ∧ (∀ (info : PeerInfo Msg) (u : NetUpdate Msg),
        (info.receive s u).received_msgs s = some (((info.received_msgs s).getD []) ++ [u])) := by
  refine ⟨?_, ?_, ?_, ?_⟩
  · match hm : st.handle_map h with
    | none => simp [getHandleEvents, queuedEvents, hm]
    | some info =>
        match hr : info.received_msgs s with
        | none => simp [getHandleEvents, queuedEvents, hm, hr]
        | some msgs => simp [getHandleEvents, queuedEvents, hm, hr]
  · match hm : st.handle_map h with
    | none => simp [getHandleEvents, hm]
    | some info =>
        match hr : info.received_msgs s with
        | none => simp [getHandleEvents, hm, hr]
        | some msgs => simp [getHandleEvents, hm, hr]
  · rintro (hm | ⟨info, hm, hr⟩)
    · simp [getHandleEvents, hm]
    · simp [getHandleEvents, hm, hr]
  · intro info u
    simp [PeerInfo.receive]

theorem c4_get_handle_events_drain_witness :
    (getHandleEvents (⟨fun _ => none, 1⟩ : NetworkManagerImp Nat) 5 0).1 = ⟨fun _ => none, 1⟩
    ∧ (getHandleEvents (⟨fun _ => none, 1⟩ : NetworkManagerImp Nat) 5 0).2 = [] :=
  (c4_get_handle_events_drain (⟨fun _ => none, 1⟩ : NetworkManagerImp Nat) 5 0).2.2.1 (Or.inl rfl)

/-- C5: every sequence of `new_stream_id` calls on a listener-side
record yields 1, 3, 5, ... in order and on a connector-side record
yields 2, 4, 6, ... in order; listener-issued and connector-issued ids
never coincide, and no issued id is the reserved control stream 0. -/
theorem c5_stream_id_parity {Msg : Type} (st : NetworkManagerImp Msg) (h : Int) (b : Bool)
    (hm : st.handle_map h = some (PeerInfo.new Msg b)) (n : ℕ) :
    (iterNewStreamIds st h n).2 =
      (List.range n).map (fun i : ℕ => some (((if b then 1 else 2) : Int) + 2 * (i : Int)))
    ∧ (∀ i : ℕ, Odd ((1 : Int) + 2 * (i : Int)))
    ∧ (∀ i : ℕ, Even ((2 : Int) + 2 * (i : Int)))
    ∧ (∀ i j : ℕ, (1 : Int) + 2 * (i : Int) ≠ 2 + 2 * (j : Int))
    ∧ (∀ i : ℕ, (if b then 1 else 2) + 2 * (i : Int) ≠ 0) := by
  refine ⟨?_, ?_, ?_, ?_, ?_⟩
  · have := (iterNewStreamIds_spec st h (PeerInfo.new Msg b) hm n).2
    simpa [PeerInfo.new] using this
  · exact fun i => ⟨i, by ring⟩
  · exact fun i => ⟨1 + i, by ring⟩
  · intro i j hij
    omega
  · intro i
    cases b
    · rw [if_neg (by simp)]
      omega
    · rw [if_pos rfl]
      omega

theorem c5_stream_id_parity_witness :
    (iterNewStreamIds (⟨fun _ => some (PeerInfo.new Nat true), 2⟩ : NetworkManagerImp Nat) 0 3).2 =
      [some 1, some 3, some 5] := by
  have := (c5_stream_id_parity (⟨fun _ => some (PeerInfo.new Nat true), 2⟩ :
    NetworkManagerImp Nat) 0 true rfl 3).1
  simpa [List.range_succ] using this

/-- C9: `send` on a handle unknown to the registry, or on a record with
no bound data connection, drops the message: nothing is handed to any
transport, no error is produced, and the registry state is unchanged. -/
theorem c9_send_dropped {Msg : Type} (st : NetworkManagerImp Msg) (h s : Int) (msg : Msg)
    (hdrop : st.handle_map h = none
      ∨ ∃ info, st.handle_map h = some info ∧ info.has_dc = false) :
    netSend st h s msg = (st, none) := by
  rcases hdrop with hm | ⟨info, hm, hdc⟩
  · simp [netSend, hm]
  · simp [netSend, hm, hdc]

theorem c9_send_dropped_witness :
    netSend (⟨fun _ => none, 1⟩ : NetworkManagerImp Nat) 7 0 42 = (⟨fun _ => none, 1⟩, none) :=
  c9_send_dropped (⟨fun _ => none, 1⟩ : NetworkManagerImp Nat) 7 0 42 (Or.inl rfl)

/-- C1: a mirror handling an incoming `EndUpdate` diff sends a
`FullUpdateReq` back on its own peer/stream and leaves its data (trail
and flag) unchanged exactly when the local trail has fewer than
`prev_segs` points or the local prefix sum over the first `prev_segs`
points differs from `prev_segs_sum`; when both checks pass it truncates
the trail to `prev_segs` points, appends `last_segs` verbatim, sets the
dirty flag, and sends nothing. -/
theorem c1_mirror_end_update (r : RemoteSnakeImp) (data : SnakeData) (u : EndUpdateMsg) :
    (((r.handleMsg data (SnakeMsg.endUpdate u)).2 =
        [(r.peer, r.stream_id, SnakeMsg.fullUpdateReq)]
      ∧ (r.handleMsg data (SnakeMsg.endUpdate u)).1 = data)
      ↔ (data.snake_points.length < u.prev_segs
        ∨ data.points_sum u.prev_segs ≠ u.prev_segs_sum))
    ∧ ((u.prev_segs ≤ data.snake_points.length
        ∧ data.points_sum u.prev_segs = u.prev_segs_sum) →
      r.handleMsg data (SnakeMsg.endUpdate u) =
        ({ data with
            snake_points := data.snake_points.take u.prev_segs ++ u.last_segs,
            points_changed := true }, [])) := by
  constructor
  · by_cases h1 : data.snake_points.length < u.prev_segs
    · simp [RemoteSnakeImp.handleMsg, h1]
    · by_cases h2 : data.points_sum u.prev_segs ≠ u.prev_segs_sum
      · simp [RemoteSnakeImp.handleMsg, h1, h2]
      · simp [RemoteSnakeImp.handleMsg, h1, h2]
  · rintro ⟨hle, hsum⟩
    have h1 : ¬ data.snake_points.length < u.prev_segs := by omega
    simp [RemoteSnakeImp.handleMsg, h1, hsum]

theorem c1_mirror_end_update_witness :
    RemoteSnakeImp.handleMsg ⟨1, 2⟩ ⟨[⟨0, 0⟩, ⟨1, 1⟩], "s", false⟩
        (SnakeMsg.endUpdate ⟨0, 0, [⟨5, 5⟩]⟩) =
      (⟨[⟨5, 5⟩], "s", true⟩, []) := by
  have h := (c1_mirror_end_update ⟨1, 2⟩ ⟨[⟨0, 0⟩, ⟨1, 1⟩], "s", false⟩
    ⟨0, 0, [⟨5, 5⟩]⟩).2 ⟨by norm_num, by simp [SnakeData.points_sum]⟩
  simpa using h

/-- C3: a peer tick that received a `FullUpdateReq` replies on its own
peer/stream with the full snapshot diff `prev_segs = 0`,
`prev_segs_sum = 0`, `last_segs = entire current trail` (first among its
sends); and a mirror applying any `prev_segs = 0`, `prev_segs_sum = 0`
snapshot always passes both validation checks and ends with its trail
exactly equal to `last_segs`, sending nothing back. -/
theorem c3_full_update_round (p : SnakePeer) (r : RemoteSnakeImp) (data dataM : SnakeData)
    (now : ℝ) (upds : List (NetUpdate NetMsg)) (segs : List Pos2d) :
    ((readSnakeMsgs upds = [SnakeMsg.fullUpdateReq]) →
      ∃ rest, (p.think data upds now).2 =
        (p.peer, p.stream_id, SnakeMsg.endUpdate ⟨0, 0, data.snake_points⟩) :: rest)
    ∧ (r.handleMsg dataM (SnakeMsg.endUpdate ⟨0, 0, segs⟩) =
        ({ dataM with snake_points := segs, points_changed := true }, [])) := by
  constructor
  · intro hread
    by_cases hsend : data.points_changed = true ∧ p.next_send_time < now
    · exact ⟨[(p.peer, p.stream_id, SnakeMsg.endUpdate (peerUpdateMsg data))],
        by simp [SnakePeer.think, hread, hsend, peerReplies]⟩
    · exact ⟨[], by simp [SnakePeer.think, hread, hsend, peerReplies]⟩
  · simp [RemoteSnakeImp.handleMsg, SnakeData.points_sum]

theorem c3_full_update_round_witness :
    ∃ rest,
      (SnakePeer.think ⟨4, 6, 0⟩ ⟨[⟨2, 3⟩, ⟨4, 5⟩], "o", false⟩
          [NetUpdate.data ⟨6, NetMsg.snake SnakeMsg.fullUpdateReq⟩] 1).2 =
        (4, 6, SnakeMsg.endUpdate ⟨0, 0, [⟨2, 3⟩, ⟨4, 5⟩]⟩) :: rest :=
  (c3_full_update_round ⟨4, 6, 0⟩ ⟨0, 0⟩ ⟨[⟨2, 3⟩, ⟨4, 5⟩], "o", false⟩
    ⟨[], "m", false⟩ 1 [NetUpdate.data ⟨6, NetMsg.snake SnakeMsg.fullUpdateReq⟩] []).1
    (by simp [readSnakeMsgs])

/-- C2: from an owner trail `P` with at least 4 points, the throttled
branch of the owner's peer tick emits exactly the incremental diff
`prev_segs = |P|-2`, `prev_segs_sum` = prefix sum of the first `|P|-2`
points, `last_segs` = final 2 points; and a mirror whose trail agrees
with `P` on its first `|P|-2` points ends, after applying that diff,
with its trail exactly equal to `P`. -/
theorem c2_reconciliation_round_trip (P M : List Pos2d) (nameO nameM : String) (bM : Bool)
    (p : SnakePeer) (r : RemoteSnakeImp) (now : ℝ)
    (hlen : 4 ≤ P.length)
    (hMlen : P.length - 2 ≤ M.length)
    (hagree : M.take (P.length - 2) = P.take (P.length - 2))
    (hsend : p.next_send_time < now) :
    peerUpdateMsg ⟨P, nameO, true⟩ =
      ⟨P.length - 2, SnakeData.points_sum ⟨P, nameO, true⟩ (P.length - 2),
        P.drop (P.length - 2)⟩
    ∧ (SnakePeer.think p ⟨P, nameO, true⟩ [] now).2 =
      [(p.peer, p.stream_id, SnakeMsg.endUpdate (peerUpdateMsg ⟨P, nameO, true⟩))]
    ∧ (r.handleMsg ⟨M, nameM, bM⟩
        (SnakeMsg.endUpdate (peerUpdateMsg ⟨P, nameO, true⟩))).1.snake_points = P := by
  have hPgt : 2 < P.length := by omega
  have hmsg : peerUpdateMsg ⟨P, nameO, true⟩ =
      ⟨P.length - 2, SnakeData.points_sum ⟨P, nameO, true⟩ (P.length - 2),
        P.drop (P.length - 2)⟩ := by
    simp [peerUpdateMsg, hPgt]
  refine ⟨hmsg, ?_, ?_⟩
  · simp [SnakePeer.think, readSnakeMsgs, peerReplies, hsend]
  · rw [hmsg]
    have hc1 : ¬ M.length < P.length - 2 := by omega
    have hc2 : SnakeData.points_sum ⟨M, nameM, bM⟩ (P.length - 2) =
        SnakeData.points_sum ⟨P, nameO, true⟩ (P.length - 2) := by
      simp only [SnakeData.points_sum, hagree]
    simp only [RemoteSnakeImp.handleMsg]
    rw [if_neg hc1, if_neg (not_ne_iff.mpr hc2)]
    show M.take (P.length - 2) ++ P.drop (P.length - 2) = P
    rw [hagree]
    exact List.take_append_drop _ _

theorem c2_reconciliation_round_trip_witness :
    (RemoteSnakeImp.handleMsg ⟨3, 4⟩ ⟨[⟨0, 1⟩, ⟨2, 3⟩, ⟨70, 70⟩, ⟨80, 80⟩], "m", false⟩
      (SnakeMsg.endUpdate
        (peerUpdateMsg ⟨[⟨0, 1⟩, ⟨2, 3⟩, ⟨4, 5⟩, ⟨6, 7⟩], "o", true⟩))).1.snake_points =
      [⟨0, 1⟩, ⟨2, 3⟩, ⟨4, 5⟩, ⟨6, 7⟩] := by
  have h := (c2_reconciliation_round_trip
    [⟨0, 1⟩, ⟨2, 3⟩, ⟨4, 5⟩, ⟨6, 7⟩] [⟨0, 1⟩, ⟨2, 3⟩, ⟨70, 70⟩, ⟨80, 80⟩]
    "o" "m" false ⟨3, 4, 0⟩ ⟨3, 4⟩ 1
    (by norm_num) (by norm_num) (by norm_num) (by norm_num)).2.2
  simpa using h

theorem ownThink_len_ge_two (data : SnakeData) (md : Bool) (mp : Pos2d) (e g : ℝ)
    (h : 2 ≤ data.snake_points.length) :
    2 ≤ (ownThink data md mp e g).snake_points.length := by
  simp only [ownThink]
  split_ifs with h1 h2 h3 h4
  · simp only [List.length_append, List.length_set, List.length_cons, List.length_nil]
    omega
  · simpa using h
  · simp only [List.length_dropLast]
    omega
  · simpa using h
  · exact h

theorem handleMsg_len_cases (r : RemoteSnakeImp) (dataM : SnakeData) (u : EndUpdateMsg) :
    (r.handleMsg dataM (SnakeMsg.endUpdate u)).1 = dataM
    ∨ (u.prev_segs ≤ dataM.snake_points.length
      ∧ (r.handleMsg dataM (SnakeMsg.endUpdate u)).1.snake_points =
          dataM.snake_points.take u.prev_segs ++ u.last_segs) := by
  simp only [RemoteSnakeImp.handleMsg]
  split_ifs with h1 h2
  · left; rfl
  · left; rfl
  · right
    exact ⟨by omega, rfl⟩

theorem handleMsg_len_ge_two (r : RemoteSnakeImp) (dataM : SnakeData) (m : SnakeMsg)
    (hm : ProducedByPeer m) (hM : 2 ≤ dataM.snake_points.length) :
    2 ≤ (r.handleMsg dataM m).1.snake_points.length := by
  rcases hm with hfull | ⟨d, hd, hcase | hcase⟩
  · subst hfull
    simpa [RemoteSnakeImp.handleMsg] using hM
  · subst hcase
    rcases handleMsg_len_cases r dataM (peerUpdateMsg d) with hsame | ⟨hle, hres⟩
    · rw [hsame]; exact hM
    · rw [hres]
      simp only [List.length_append, List.length_take]
      by_cases hdl : 2 < d.snake_points.length
      · have : (peerUpdateMsg d).last_segs = d.snake_points.drop (d.snake_points.length - 2) := by
          simp [peerUpdateMsg, hdl]
        rw [this, List.length_drop]
        omega
      · have : (peerUpdateMsg d).last_segs = d.snake_points := by
          simp [peerUpdateMsg, hdl]
        rw [this]
        omega
  · subst hcase
    rcases handleMsg_len_cases r dataM ⟨0, 0, d.snake_points⟩ with hsame | ⟨hle, hres⟩
    · rw [hsame]; exact hM
    · rw [hres]
      simp only [List.length_append, List.length_take]
      omega

theorem processMsgs_len_ge_two (r : RemoteSnakeImp) (msgs : List SnakeMsg) :
    ∀ data : SnakeData, (∀ m ∈ msgs, ProducedByPeer m) →
    2 ≤ data.snake_points.length →
    2 ≤ (r.processMsgs data msgs).1.snake_points.length := by
  induction msgs with
  | nil =>
      intro data _ h
      simpa [RemoteSnakeImp.processMsgs] using h
  | cons m rest ih =>
      intro data hall h
      have h1 := handleMsg_len_ge_two r data m (hall m (by simp)) h
      have h2 := ih (r.handleMsg data m).1 (fun x hx => hall x (by simp [hx])) h1
      simpa [RemoteSnakeImp.processMsgs] using h2

/-- C6: the trail length stays at least 2: through every owner tick,
through every mirror handling of a message an owner-side peer tick can
produce from a trail of length ≥ 2 (and hence through a whole
`Snake::think` frame whose incoming mirror-stream diffs are such
messages), while a frame consisting only of peer ticks never alters the
trail at all. -/
theorem c6_trail_length_invariant :
    (∀ (data : SnakeData) (md : Bool) (mp : Pos2d) (e g : ℝ),
      2 ≤ data.snake_points.length →
      2 ≤ (ownThink data md mp e g).snake_points.length)
    ∧ (∀ (r : RemoteSnakeImp) (dataM : SnakeData) (m : SnakeMsg),
      ProducedByPeer m → 2 ≤ dataM.snake_points.length →
      2 ≤ (r.handleMsg dataM m).1.snake_points.length)
    ∧ (∀ (s : Snake) (md : Bool) (mp : Pos2d) (e now g : ℝ)
        (rupds : List (NetUpdate NetMsg)) (pupds : List (List (NetUpdate NetMsg))),
      2 ≤ s.data.snake_points.length →
      (∀ m ∈ readSnakeMsgs rupds, ProducedByPeer m) →
      2 ≤ (Snake.think s md mp e now g rupds pupds).1.data.snake_points.length)
    ∧ (∀ (s : Snake) (md : Bool) (mp : Pos2d) (e now g : ℝ)
        (rupds : List (NetUpdate NetMsg)) (pupds : List (List (NetUpdate NetMsg))),
      s.own_imp = false → s.remote_imp = none →
      (Snake.think s md mp e now g rupds pupds).1.data.snake_points =
        s.data.snake_points) := by
  refine ⟨ownThink_len_ge_two, handleMsg_len_ge_two, ?_, ?_⟩
  · intro s md mp e now g rupds pupds hlen hprod
    cases hsr : s.remote_imp with
    | none =>
        cases hso : s.own_imp
        · simpa [Snake.think, hsr, hso] using hlen
        · have h1 := ownThink_len_ge_two { s.data with points_changed := false }
            md mp e g (by simpa using hlen)
          simpa [Snake.think, hsr, hso] using h1
    | some r =>
        cases hso : s.own_imp
        · have h2 := processMsgs_len_ge_two r (readSnakeMsgs rupds)
            { s.data with points_changed := false } hprod (by simpa using hlen)
          simpa [Snake.think, RemoteSnakeImp.think, hsr, hso] using h2
        · have h1 := ownThink_len_ge_two { s.data with points_changed := false }
            md mp e g (by simpa using hlen)
          have h2 := processMsgs_len_ge_two r (readSnakeMsgs rupds) _ hprod h1
          simpa [Snake.think, RemoteSnakeImp.think, hsr, hso] using h2
  · intro s md mp e now g rupds pupds hown hrem
    simp [Snake.think, hown, hrem]

theorem c6_trail_length_invariant_witness :
    2 ≤ (ownThink ⟨[⟨0, 0⟩, ⟨1, 1⟩], "w", false⟩ false ⟨9, 9⟩ 1 1).snake_points.length :=
  c6_trail_length_invariant.1 ⟨[⟨0, 0⟩, ⟨1, 1⟩], "w", false⟩ false ⟨9, 9⟩ 1 1 (by simp)

theorem interpAdvance_dist (cur target : Pos2d) (speed elapsed : ℝ)
    (h0 : 0 ≤ speed * elapsed) (hlt : speed * elapsed < Pos2d.dist cur target) :
    Pos2d.dist cur (interpAdvance cur target speed elapsed) = speed * elapsed := by
  have hdpos : 0 < Pos2d.dist cur target := lt_of_le_of_lt h0 hlt
  have hD2 : Pos2d.dist cur target ^ 2 =
      (cur.x - target.x) ^ 2 + (cur.y - target.y) ^ 2 :=
    Real.sq_sqrt (by positivity)
  simp only [interpAdvance]
  rw [if_neg (not_le.mpr hlt)]
  show Real.sqrt ((cur.x - (cur.x + speed * elapsed / Pos2d.dist cur target *
      (target.x - cur.x))) ^ 2 + (cur.y - (cur.y + speed * elapsed / Pos2d.dist cur target *
      (target.y - cur.y))) ^ 2) = speed * elapsed
  have key : (cur.x - (cur.x + speed * elapsed / Pos2d.dist cur target *
      (target.x - cur.x))) ^ 2 + (cur.y - (cur.y + speed * elapsed / Pos2d.dist cur target *
      (target.y - cur.y))) ^ 2 =
      (speed * elapsed / Pos2d.dist cur target) ^ 2 *
        ((cur.x - target.x) ^ 2 + (cur.y - target.y) ^ 2) := by
    ring
  rw [key, ← hD2]
  have h3 : (speed * elapsed / Pos2d.dist cur target) ^ 2 * Pos2d.dist cur target ^ 2 =
      (speed * elapsed) ^ 2 := by
    field_simp
  rw [h3, Real.sqrt_sq h0]

/-- C7: in the owner grow tick, once the last point has been advanced,
a duplicate of it is appended whenever its distance to the prior point
exceeds 20; and in the concrete scenario (trail `[(200,200),(300,300)]`,
pointer pressed at `(400,400)`, `grow_speed = 100`, `elapsed_time = 1`)
the last point becomes `(300+50*sqrt 2, 300+50*sqrt 2)` - exactly 100
units from `(300,300)` and on the straight segment toward `(400,400)` -
and, being more than 20 units from the prior point, is duplicated. -/
theorem c7_owner_growth :
    (∀ (data : SnakeData) (mp : Pos2d) (e g : ℝ),
      mp ≠ data.snake_points.getLastD ⟨0, 0⟩ →
      20 < Pos2d.dist (interpAdvance (data.snake_points.getLastD ⟨0, 0⟩) mp g e)
          ((data.snake_points.set (data.snake_points.length - 1)
              (interpAdvance (data.snake_points.getLastD ⟨0, 0⟩) mp g e)).getD
            (data.snake_points.length - 2) ⟨0, 0⟩) →
        (ownThink data true mp e g).snake_points =
          data.snake_points.set (data.snake_points.length - 1)
              (interpAdvance (data.snake_points.getLastD ⟨0, 0⟩) mp g e)
            ++ [interpAdvance (data.snake_points.getLastD ⟨0, 0⟩) mp g e])
    ∧ (∀ (nm : String) (b : Bool),
      ownThink ⟨[⟨200, 200⟩, ⟨300, 300⟩], nm, b⟩ true ⟨400, 400⟩ 1 100 =
        ⟨[⟨200, 200⟩, ⟨300 + 50 * Real.sqrt 2, 300 + 50 * Real.sqrt 2⟩,
          ⟨300 + 50 * Real.sqrt 2, 300 + 50 * Real.sqrt 2⟩], nm, true⟩
      ∧ Pos2d.dist ⟨300, 300⟩ ⟨300 + 50 * Real.sqrt 2, 300 + 50 * Real.sqrt 2⟩ = 100
      ∧ (∃ t : ℝ, 0 ≤ t ∧ t ≤ 1 ∧
          (⟨300 + 50 * Real.sqrt 2, 300 + 50 * Real.sqrt 2⟩ : Pos2d) =
            ⟨300 + t * (400 - 300), 300 + t * (400 - 300)⟩)) := by
  have h2 : Real.sqrt 2 * Real.sqrt 2 = 2 := Real.mul_self_sqrt (by norm_num)
  have hs2nn : (0 : ℝ) ≤ Real.sqrt 2 := Real.sqrt_nonneg 2
  have hs2one : (1 : ℝ) < Real.sqrt 2 := by nlinarith [h2, hs2nn]
  constructor
  · intro data mp e g hne hdist
    simp only [ownThink]
    rw [if_pos ⟨trivial, hne⟩]
    simp only [List.length_set]
    rw [if_pos hdist]
  · intro nm b
    have hd : Pos2d.dist ⟨300, 300⟩ ⟨400, 400⟩ = 100 * Real.sqrt 2 := by
      show Real.sqrt (((300 : ℝ) - 400) ^ 2 + ((300 : ℝ) - 400) ^ 2) = 100 * Real.sqrt 2
      rw [show ((300 : ℝ) - 400) ^ 2 + ((300 : ℝ) - 400) ^ 2 = 100 ^ 2 * 2 by norm_num,
        Real.sqrt_mul (by positivity), Real.sqrt_sq (by norm_num)]
    have hnotle : ¬ (Pos2d.dist ⟨300, 300⟩ ⟨400, 400⟩ ≤ 100 * 1) := by
      rw [hd]
      nlinarith [hs2one]
    have hcur : interpAdvance ⟨300, 300⟩ ⟨400, 400⟩ 100 1 =
        ⟨300 + 50 * Real.sqrt 2, 300 + 50 * Real.sqrt 2⟩ := by
      simp only [interpAdvance]
      rw [if_neg hnotle, hd]
      have hx : (100 : ℝ) * 1 / (100 * Real.sqrt 2) * (400 - 300) = 50 * Real.sqrt 2 := by
        rw [div_mul_eq_mul_div, div_eq_iff (by positivity)]
        nlinarith [h2]
      ext
      · show (300 : ℝ) + 100 * 1 / (100 * Real.sqrt 2) * (400 - 300) = 300 + 50 * Real.sqrt 2
        rw [hx]
      · show (300 : ℝ) + 100 * 1 / (100 * Real.sqrt 2) * (400 - 300) = 300 + 50 * Real.sqrt 2
        rw [hx]
    have hne : (⟨400, 400⟩ : Pos2d) ≠
        (([⟨200, 200⟩, ⟨300, 300⟩] : List Pos2d).getLastD ⟨0, 0⟩) := by
      simp only [List.getLastD]
      intro hcontra
      have := congrArg Pos2d.x hcontra
      norm_num at this
    have hfar : 20 < Pos2d.dist ⟨300 + 50 * Real.sqrt 2, 300 + 50 * Real.sqrt 2⟩ ⟨200, 200⟩ := by
      have hA : (0 : ℝ) ≤ 100 + 50 * Real.sqrt 2 := by nlinarith [hs2nn]
      calc (20 : ℝ) < 100 + 50 * Real.sqrt 2 := by nlinarith [hs2nn]
        _ = Real.sqrt ((100 + 50 * Real.sqrt 2) ^ 2) := (Real.sqrt_sq hA).symm
        _ ≤ Real.sqrt ((300 + 50 * Real.sqrt 2 - 200) ^ 2 +
              (300 + 50 * Real.sqrt 2 - 200) ^ 2) := by
            apply Real.sqrt_le_sqrt
            nlinarith [hs2nn]
        _ = Pos2d.dist ⟨300 + 50 * Real.sqrt 2, 300 + 50 * Real.sqrt 2⟩ ⟨200, 200⟩ := rfl
    have hlast : (([⟨200, 200⟩, ⟨300, 300⟩] : List Pos2d).getLastD ⟨0, 0⟩) =
        ⟨300, 300⟩ := rfl
    refine ⟨?_, ?_, ⟨Real.sqrt 2 / 2, by positivity, by nlinarith [h2, hs2nn], ?_⟩⟩
    · simp only [ownThink]
      rw [if_pos ⟨trivial, hne⟩]
      simp only [hlast, hcur]
      split_ifs with hcond
      · rfl
      · exact absurd hfar hcond
    · show Real.sqrt (((300 : ℝ) - (300 + 50 * Real.sqrt 2)) ^ 2 +
          ((300 : ℝ) - (300 + 50 * Real.sqrt 2)) ^ 2) = 100
      rw [show ((300 : ℝ) - (300 + 50 * Real.sqrt 2)) ^ 2 +
          ((300 : ℝ) - (300 + 50 * Real.sqrt 2)) ^ 2 = 10000 by linear_combination 5000 * h2,
        show (10000 : ℝ) = 100 ^ 2 by norm_num, Real.sqrt_sq (by norm_num)]
    · ext
      · show (300 : ℝ) + 50 * Real.sqrt 2 = 300 + Real.sqrt 2 / 2 * (400 - 300)
        ring
      · show (300 : ℝ) + 50 * Real.sqrt 2 = 300 + Real.sqrt 2 / 2 * (400 - 300)
        ring

theorem c7_owner_growth_witness :
    (ownThink ⟨[⟨0, 0⟩, ⟨0, 0⟩], "w", false⟩ true ⟨0, 100⟩ 1 50).snake_points =
      [⟨0, 0⟩, ⟨0, 50⟩, ⟨0, 50⟩] := by
  have hdw : Pos2d.dist ⟨0, 0⟩ ⟨0, 100⟩ = 100 := by
    show Real.sqrt (((0 : ℝ) - 0) ^ 2 + ((0 : ℝ) - 100) ^ 2) = 100
    rw [show ((0 : ℝ) - 0) ^ 2 + ((0 : ℝ) - 100) ^ 2 = 100 ^ 2 by norm_num,
      Real.sqrt_sq (by norm_num)]
  have hcurw : interpAdvance ⟨0, 0⟩ ⟨0, 100⟩ 50 1 = ⟨0, 50⟩ := by
    simp only [interpAdvance]
    rw [hdw, if_neg (by norm_num)]
    ext
    · show (0 : ℝ) + 50 * 1 / 100 * (0 - 0) = 0
      norm_num
    · show (0 : ℝ) + 50 * 1 / 100 * (100 - 0) = 50
      norm_num
  have hd2 : Pos2d.dist ⟨0, 50⟩ ⟨0, 0⟩ = 50 := by
    show Real.sqrt (((0 : ℝ) - 0) ^ 2 + ((50 : ℝ) - 0) ^ 2) = 50
    rw [show ((0 : ℝ) - 0) ^ 2 + ((50 : ℝ) - 0) ^ 2 = 50 ^ 2 by norm_num,
      Real.sqrt_sq (by norm_num)]
  have hne : (⟨0, 100⟩ : Pos2d) ≠
      (([⟨0, 0⟩, ⟨0, 0⟩] : List Pos2d).getLastD ⟨0, 0⟩) := by
    intro hc
    have := congrArg Pos2d.y hc
    norm_num at this
  have happ := c7_owner_growth.1 ⟨[⟨0, 0⟩, ⟨0, 0⟩], "w", false⟩ ⟨0, 100⟩ 1 50 hne
    (by
      show 20 < Pos2d.dist (interpAdvance ⟨0, 0⟩ ⟨0, 100⟩ 50 1) ⟨0, 0⟩
      rw [hcurw, hd2]
      norm_num)
  rw [happ]
  show ([⟨0, 0⟩, ⟨0, 0⟩] : List Pos2d).set 1 (interpAdvance ⟨0, 0⟩ ⟨0, 100⟩ 50 1)
      ++ [interpAdvance ⟨0, 0⟩ ⟨0, 100⟩ 50 1] = [⟨0, 0⟩, ⟨0, 50⟩, ⟨0, 50⟩]
  rw [hcurw]
  rfl

/-- C8: in the owner shrink tick (pointer up, more than 2 points) the
last point is replaced by the interpolated point - which sits exactly
`grow_speed * elapsed_time` away from the old last point while that
distance is still short of the previous point - and in the tick in
which the interpolated point reaches the previous point exactly, the
last point is dropped; in particular the trail
`[(200,200),(300,300),(305,305)]` with the pointer up and
`grow_speed * elapsed_time` at least `sqrt 50` becomes
`[(200,200),(300,300)]`. -/
theorem c8_owner_shrink :
    (∀ (data : SnakeData) (mp : Pos2d) (e g : ℝ),
      2 < data.snake_points.length →
      (interpAdvance (data.snake_points.getLastD ⟨0, 0⟩)
            (data.snake_points.getD (data.snake_points.length - 2) ⟨0, 0⟩) g e =
          data.snake_points.getD (data.snake_points.length - 2) ⟨0, 0⟩ →
        (ownThink data false mp e g).snake_points = data.snake_points.dropLast)
      ∧ (interpAdvance (data.snake_points.getLastD ⟨0, 0⟩)
            (data.snake_points.getD (data.snake_points.length - 2) ⟨0, 0⟩) g e ≠
          data.snake_points.getD (data.snake_points.length - 2) ⟨0, 0⟩ →
        (ownThink data false mp e g).snake_points =
          data.snake_points.set (data.snake_points.length - 1)
            (interpAdvance (data.snake_points.getLastD ⟨0, 0⟩)
              (data.snake_points.getD (data.snake_points.length - 2) ⟨0, 0⟩) g e)))
    ∧ (∀ (cur target : Pos2d) (speed elapsed : ℝ),
      0 ≤ speed * elapsed → speed * elapsed < Pos2d.dist cur target →
      Pos2d.dist cur (interpAdvance cur target speed elapsed) = speed * elapsed)
    ∧ (∀ (nm : String) (b : Bool) (mp : Pos2d) (e g : ℝ),
      Real.sqrt 50 ≤ g * e →
      ownThink ⟨[⟨200, 200⟩, ⟨300, 300⟩, ⟨305, 305⟩], nm, b⟩ false mp e g =
        ⟨[⟨200, 200⟩, ⟨300, 300⟩], nm, true⟩) := by
  refine ⟨?_, interpAdvance_dist, ?_⟩
  · intro data mp e g hlen
    constructor
    · intro hreach
      simp only [ownThink, false_and, if_false, true_and]
      rw [if_neg (show ¬(false = true ∧ mp ≠ data.snake_points.getLastD ⟨0, 0⟩) from
        fun h => by simpa using h.1), if_pos hlen, if_pos hreach]
    · intro hmiss
      simp only [ownThink, false_and, if_false, true_and]
      rw [if_neg (show ¬(false = true ∧ mp ≠ data.snake_points.getLastD ⟨0, 0⟩) from
        fun h => by simpa using h.1), if_pos hlen, if_neg hmiss]
  · intro nm b mp e g h50
    have hd50 : Pos2d.dist ⟨305, 305⟩ ⟨300, 300⟩ = Real.sqrt 50 := by
      show Real.sqrt (((305 : ℝ) - 300) ^ 2 + ((305 : ℝ) - 300) ^ 2) = Real.sqrt 50
      norm_num
    have hreach : interpAdvance ⟨305, 305⟩ ⟨300, 300⟩ g e = ⟨300, 300⟩ := by
      simp only [interpAdvance]
      rw [hd50, if_pos h50]
    have hreach2 : interpAdvance
        (([⟨200, 200⟩, ⟨300, 300⟩, ⟨305, 305⟩] : List Pos2d).getLastD ⟨0, 0⟩)
        (([⟨200, 200⟩, ⟨300, 300⟩, ⟨305, 305⟩] : List Pos2d).getD
          (([⟨200, 200⟩, ⟨300, 300⟩, ⟨305, 305⟩] : List Pos2d).length - 2) ⟨0, 0⟩) g e =
        ([⟨200, 200⟩, ⟨300, 300⟩, ⟨305, 305⟩] : List Pos2d).getD
          (([⟨200, 200⟩, ⟨300, 300⟩, ⟨305, 305⟩] : List Pos2d).length - 2) ⟨0, 0⟩ := hreach
    simp only [ownThink, false_and, if_false, true_and]
    rw [if_neg (show ¬(false = true ∧ mp ≠
        (([⟨200, 200⟩, ⟨300, 300⟩, ⟨305, 305⟩] : List Pos2d).getLastD ⟨0, 0⟩)) from
      fun h => by simpa using h.1)]
    rw [if_pos (show 2 < ([⟨200, 200⟩, ⟨300, 300⟩, ⟨305, 305⟩] : List Pos2d).length by simp),
      if_pos hreach2]
    rfl

theorem c8_owner_shrink_witness :
    ownThink ⟨[⟨200, 200⟩, ⟨300, 300⟩, ⟨305, 305⟩], "w", false⟩ false ⟨0, 0⟩ 1 100 =
      ⟨[⟨200, 200⟩, ⟨300, 300⟩], "w", true⟩ := by
  have h50 : Real.sqrt 50 ≤ (100 : ℝ) * 1 := by
    rw [show (100 : ℝ) * 1 = Real.sqrt (10000 : ℝ) from by
      rw [show (10000 : ℝ) = 100 ^ 2 by norm_num, Real.sqrt_sq (by norm_num)]
      norm_num]
    exact Real.sqrt_le_sqrt (by norm_num)
  exact c8_owner_shrink.2.2 "w" false ⟨0, 0⟩ 1 100 h50

theorem peerReplies_eq_nil (p : SnakePeer) (pts : List Pos2d) (msgs : List SnakeMsg)
    (h : ∀ m ∈ msgs, m ≠ SnakeMsg.fullUpdateReq) : peerReplies p pts msgs = [] := by
  induction msgs with
  | nil => rfl
  | cons m rest ih =>
      cases m with
      | endUpdate u =>
          simp only [peerReplies]
          exact ih fun x hx => h x (by simp [hx])
      | fullUpdateReq => exact absurd rfl (h SnakeMsg.fullUpdateReq (by simp))

theorem peersThink_no_sends (ps : List SnakePeer) :
    ∀ (upds : List (List (NetUpdate NetMsg))) (data : SnakeData) (now : ℝ),
    data.points_changed = false →
    (∀ l ∈ upds, ∀ m ∈ readSnakeMsgs l, m ≠ SnakeMsg.fullUpdateReq) →
    (peersThink ps upds data now).2 = [] := by
  induction ps with
  | nil => intro upds data now _ _; rfl
  | cons p rest ih =>
      intro upds data now hflag hnoreq
      have hthrottle : ¬ (data.points_changed = true ∧ p.next_send_time < now) := by
        rw [hflag]
        simp
      have hhead : ∀ m ∈ readSnakeMsgs (upds.headD []), m ≠ SnakeMsg.fullUpdateReq := by
        cases upds with
        | nil => simp [readSnakeMsgs]
        | cons l rest2 => exact fun m hm => hnoreq l (by simp) m hm
      have h1 : (p.think data (upds.headD []) now).2 = [] := by
        simp only [SnakePeer.think]
        rw [if_neg hthrottle]
        exact peerReplies_eq_nil p data.snake_points _ hhead
      have h2 : (peersThink rest upds.tail data now).2 = [] :=
        ih upds.tail data now hflag
          (fun l hl => hnoreq l (List.mem_of_mem_tail hl))
      simp only [peersThink, h1, h2]
      rfl

/-- C10 counterexample: the claim "a SnakePeer never emits an
unsolicited EndUpdate diff in a frame in which no trail point was
changed by that same frame's owner or mirror tick" fails as stated: a
mirror tick can apply a validated diff (`prev_segs` = whole trail,
empty `last_segs`) that leaves every trail point exactly as it was yet
still sets the dirty flag, whereupon the peer emits a throttled
`EndUpdate` although no `FullUpdateReq` arrived and no point changed. -/
theorem c10_unsolicited_send_unchanged_trail :
    (Snake.think ⟨⟨[⟨0, 0⟩, ⟨1, 1⟩], "m", false⟩, false, some ⟨7, 3⟩, [⟨7, 5, 0⟩]⟩
        false ⟨0, 0⟩ 0 1 0
        [NetUpdate.data ⟨3, NetMsg.snake (SnakeMsg.endUpdate ⟨2, 2, []⟩)⟩]
        [[]]).1.data.snake_points = [⟨0, 0⟩, ⟨1, 1⟩]
    ∧ (Snake.think ⟨⟨[⟨0, 0⟩, ⟨1, 1⟩], "m", false⟩, false, some ⟨7, 3⟩, [⟨7, 5, 0⟩]⟩
        false ⟨0, 0⟩ 0 1 0
        [NetUpdate.data ⟨3, NetMsg.snake (SnakeMsg.endUpdate ⟨2, 2, []⟩)⟩]
        [[]]).2 = [(7, 5, SnakeMsg.endUpdate ⟨0, 0, [⟨0, 0⟩, ⟨1, 1⟩]⟩)] := by
  have hsum : SnakeData.points_sum ⟨[⟨0, 0⟩, ⟨1, 1⟩], "m", false⟩ 2 = 2 := by
    simp [SnakeData.points_sum]
    norm_num
  have hhandle : RemoteSnakeImp.handleMsg ⟨7, 3⟩ ⟨[⟨0, 0⟩, ⟨1, 1⟩], "m", false⟩
      (SnakeMsg.endUpdate ⟨2, 2, []⟩) = (⟨[⟨0, 0⟩, ⟨1, 1⟩], "m", true⟩, []) := by
    simp only [RemoteSnakeImp.handleMsg]
    split_ifs with h1 h2
    · exact absurd h1 (by simp)
    · exact absurd hsum h2
    · simp
  have hremote : RemoteSnakeImp.think ⟨7, 3⟩ ⟨[⟨0, 0⟩, ⟨1, 1⟩], "m", false⟩
      [NetUpdate.data ⟨3, NetMsg.snake (SnakeMsg.endUpdate ⟨2, 2, []⟩)⟩] =
      (⟨[⟨0, 0⟩, ⟨1, 1⟩], "m", true⟩, []) := by
    have hread : readSnakeMsgs
        [NetUpdate.data ⟨3, NetMsg.snake (SnakeMsg.endUpdate ⟨2, 2, []⟩)⟩] =
        [SnakeMsg.endUpdate ⟨2, 2, []⟩] := rfl
    simp only [RemoteSnakeImp.think, hread, RemoteSnakeImp.processMsgs, hhandle]
    rfl
  have hpeer : SnakePeer.think ⟨7, 5, 0⟩ ⟨[⟨0, 0⟩, ⟨1, 1⟩], "m", true⟩ [] 1 =
      (⟨7, 5, 1 + 0.1⟩, [(7, 5, SnakeMsg.endUpdate ⟨0, 0, [⟨0, 0⟩, ⟨1, 1⟩]⟩)]) := by
    simp only [SnakePeer.think, readSnakeMsgs, peerReplies]
    rw [if_pos ⟨by trivial, by norm_num⟩]
    simp [peerUpdateMsg]
  have hthink : Snake.think ⟨⟨[⟨0, 0⟩, ⟨1, 1⟩], "m", false⟩, false, some ⟨7, 3⟩, [⟨7, 5, 0⟩]⟩
      false ⟨0, 0⟩ 0 1 0
      [NetUpdate.data ⟨3, NetMsg.snake (SnakeMsg.endUpdate ⟨2, 2, []⟩)⟩] [[]] =
      (⟨⟨[⟨0, 0⟩, ⟨1, 1⟩], "m", true⟩, false, some ⟨7, 3⟩, [⟨7, 5, 1 + 0.1⟩]⟩,
        [(7, 5, SnakeMsg.endUpdate ⟨0, 0, [⟨0, 0⟩, ⟨1, 1⟩]⟩)]) := by
    simp only [Snake.think, Bool.false_eq_true, if_false, hremote, peersThink,
      List.headD, List.tail, hpeer]
    rfl
  rw [hthink]
  exact ⟨rfl, rfl⟩

/-- C10 amended: `Snake::think` clears the dirty flag before the
owner/mirror/peer sub-ticks, so its entire behavior is independent of
the incoming `points_changed` value (an earlier frame's change that the
100ms throttle suppressed can never cause a later send); and in a frame
in which neither the owner nor the mirror tick set the dirty flag and
no `FullUpdateReq` arrived on any peer stream, the peers emit nothing:
the sends are those of the same snake with no peers at all. -/
theorem c10_dirty_flag_reset :
    (∀ (s : Snake) (b md : Bool) (mp : Pos2d) (e now g : ℝ)
        (rupds : List (NetUpdate NetMsg)) (pupds : List (List (NetUpdate NetMsg))),
      Snake.think { s with data := { s.data with points_changed := b } }
          md mp e now g rupds pupds =
        Snake.think s md mp e now g rupds pupds)
    ∧ (∀ (s : Snake) (md : Bool) (mp : Pos2d) (e now g : ℝ)
        (rupds : List (NetUpdate NetMsg)) (pupds : List (List (NetUpdate NetMsg))),
      (Snake.think s md mp e now g rupds pupds).1.data.points_changed = false →
      (∀ l ∈ pupds, ∀ m ∈ readSnakeMsgs l, m ≠ SnakeMsg.fullUpdateReq) →
      (Snake.think s md mp e now g rupds pupds).2 =
        (Snake.think { s with peers := [] } md mp e now g rupds pupds).2) := by
  constructor
  · intro s b md mp e now g rupds pupds
    rfl
  · intro s md mp e now g rupds pupds hflag hnoreq
    simp only [Snake.think] at hflag ⊢
    rw [peersThink_no_sends s.peers pupds _ now hflag hnoreq]
    simp [peersThink]

theorem c10_dirty_flag_reset_witness :
    (Snake.think ⟨⟨[⟨0, 0⟩, ⟨1, 1⟩], "m", false⟩, false, none, [⟨7, 5, 0⟩]⟩
        false ⟨0, 0⟩ 0 1 0 [] [[]]).2 =
      (Snake.think ⟨⟨[⟨0, 0⟩, ⟨1, 1⟩], "m", false⟩, false, none, []⟩
        false ⟨0, 0⟩ 0 1 0 [] [[]]).2 :=
  c10_dirty_flag_reset.2 ⟨⟨[⟨0, 0⟩, ⟨1, 1⟩], "m", false⟩, false, none, [⟨7, 5, 0⟩]⟩
    false ⟨0, 0⟩ 0 1 0 [] [[]] rfl
    (by intro l hl; simp at hl; subst hl; simp [readSnakeMsgs])
